import Mathlib

/-!
Shallow embedding of the retrieval-and-ranking core of the StayHere agent
(`app/agent_simple.py`, `config/settings.py`): the text chunker
(`SimpleKnowledgeBase._split_text`), the lexical knowledge-base search
(`SimpleKnowledgeBase.search` / `load_documents`), the listing filter
(`SimpleRealEstateAgent._apply_semantic_filters`), the multi-factor
relevance scorer (`_score_properties_semantically`), and the dialogue
orchestrator state (`process_query`, `_generate_response`,
`_calculate_confidence`).

Modelling conventions: Python text is a Lean `String` (a list of
characters), Python float scores are rationals, Python exceptions are
`Except`, and the unbounded `while` loop of the chunker is fuel-indexed
(`none` models a run that never exits the loop).  Python `round(x, n)` is
modelled with Mathlib `round` (they can differ only at exact midpoints of
the last digit, which no statement below touches).
-/

/-- Python `str.lower()`, per character (the corpus is ASCII). -/
def pyLower (s : String) : String := String.mk (s.toList.map Char.toLower)

/-- The needle is a prefix of the hay (on character lists). -/
def strLeads : List Char → List Char → Bool
  | [], _ => true
  | _ :: _, [] => false
  | a :: as, b :: bs => a == b && strLeads as bs

/-- Helper for Python `needle in hay`: contiguous containment on lists. -/
def listIn (n : List Char) : List Char → Bool
  | [] => strLeads n []
  | c :: t => strLeads n (c :: t) || listIn n t

/-- Python `needle in hay` for strings: contiguous substring containment. -/
def strIn (needle hay : String) : Bool := listIn needle.toList hay.toList

/-- Python `str.strip()` whitespace (the ASCII whitespace characters). -/
def pySpace (c : Char) : Bool :=
  c == ' ' || c == '\t' || c == '\n' || c == '\r' || c == '\x0b' || c == '\x0c'

/-- Strip leading and trailing whitespace from a character list. -/
def trimChars (l : List Char) : List Char :=
  ((l.dropWhile pySpace).reverse.dropWhile pySpace).reverse

/-- Python `str.strip()`. -/
def pyStrip (s : String) : String := String.mk (trimChars s.toList)

/-- A word character of the regex `\w` (ASCII regime). -/
def wordChar (c : Char) : Bool := c.isAlphanum || c == '_'

/-- Accumulator scan behind `re.findall(r'\b\w+\b', s)`: maximal runs of
word characters, in order. -/
def wordsAux : List Char → List Char → List String
  | [], cur => if cur = [] then [] else [String.mk cur.reverse]
  | c :: t, cur =>
    if wordChar c then wordsAux t (c :: cur)
    else if cur = [] then wordsAux t [] else String.mk cur.reverse :: wordsAux t []

/-- `re.findall(r'\b\w+\b', s)`: the list of words of `s`. -/
def pyFindWords (s : String) : List String := wordsAux s.toList []

/-- Python `set(re.findall(r'\b\w+\b', s))`, as a duplicate-free list (only
membership and cardinalities of the set are ever used). -/
def wordSet (s : String) : List String := (pyFindWords s).dedup

/-- `len(a & b)` for Python sets represented as duplicate-free lists. -/
def interCard (a b : List String) : Nat := (a.filter (fun x => b.contains x)).length

/-- `len(a | b)` for Python sets represented as duplicate-free lists. -/
def unionCard (a b : List String) : Nat :=
  a.length + (b.filter (fun x => !a.contains x)).length

/-- Python `" ".join(l)`. -/
def joinSpace (l : List String) : String := String.intercalate " " l

/-- The backward sentence-boundary scan of `_split_text`: `i` counts down
from `min(100, chunk_size - overlap)` to 1 and the first `i` with
`end - i < len(text)` and `text[end - i]` in `'.!?'` cuts at `end - i + 1`. -/
def findCut (text : List Char) (endPos : Nat) : Nat → Option Nat
  | 0 => none
  | i + 1 =>
    if endPos - (i + 1) < text.length &&
        (text.getD (endPos - (i + 1)) ' ' == '.' ||
         text.getD (endPos - (i + 1)) ' ' == '!' ||
         text.getD (endPos - (i + 1)) ' ' == '?') then
      some (endPos - (i + 1) + 1)
    else findCut text endPos i

/-- The cut position of one `_split_text` iteration: `end = start + chunk_size`,
moved back to just after a sentence terminator when the scan finds one and
the window does not already reach the end of the text. -/
def cutPos (text : List Char) (cs ov start : Nat) : Nat :=
  if start + cs < text.length then
    match findCut text (start + cs) (min 100 (cs - ov)) with
    | some e => e
    | none => start + cs
  else start + cs

/-- The `while start < len(text)` loop of `_split_text`, fuel-indexed; the
source loop has no bound of its own, and `none` models a run that exhausts
any amount of fuel (the loop never exits). -/
def splitGo (text : List Char) (cs ov : Nat) : Nat → Nat → List String → Option (List String)
  | 0, _, _ => none
  | fuel + 1, start, acc =>
    if start < text.length then
      let chunk := pyStrip (String.mk ((text.drop start).take (cutPos text cs ov start - start)))
      splitGo text cs ov fuel (cutPos text cs ov start - ov)
        (if chunk = "" then acc else acc ++ [chunk])
    else some acc

/-- `SimpleKnowledgeBase._split_text(text, chunk_size, overlap)` with explicit
fuel for its loop: a text no longer than `chunk_size` is returned whole
(unstripped) without entering the loop. -/
def split_textFuel (fuel : Nat) (text : String) (cs ov : Nat) : Option (List String) :=
  if text.length ≤ cs then some [text] else splitGo text.toList cs ov fuel 0 []

/-- `_split_text` at the source defaults `chunk_size=1000, overlap=200`;
fuel `text.length + 1` is enough there because every iteration advances
`start` (proved below for `overlap < chunk_size`). -/
def split_text (text : String) : List String :=
  (split_textFuel (text.length + 1) text 1000 200).getD []

/-- The loop of `_split_text` exits on the given arguments. -/
def SplitTerminates (text : String) (cs ov : Nat) : Prop :=
  ∃ fuel, (split_textFuel fuel text cs ov).isSome

/-- One chunk record accumulated by `load_documents` (`content`, `source`,
`chunk_id`; the stat metadata carries no logic and is omitted). -/
structure DocChunk where
  content : String
  source : String
  chunk_id : Nat
deriving DecidableEq

/-- A `SearchResult` of `app/models.py` (the metadata dict carries no
logic and is omitted). -/
structure SearchResult where
  content : String
  source : String
  score : ℚ
deriving DecidableEq

/-- A file under the knowledge-base root: its name, its lowercased suffix
and its text (only `.txt` files yield text in `_extract_text`). -/
structure KBFile where
  name : String
  suffix : String
  text : String
deriving DecidableEq

/-- The filesystem as `load_documents` sees it: whether the configured
knowledge-base root exists, and the files under it. -/
structure FileSystem where
  rootExists : Bool
  files : List KBFile
deriving DecidableEq

/-- The exception a failed load raises (`FileNotFoundError` re-raised by the
handler of `load_documents`). -/
inductive LoadError where
  | pathNotFound
deriving DecidableEq

/-- The mutable state of `SimpleKnowledgeBase`: `documents` and `loaded`. -/
structure KBState where
  documents : List DocChunk
  loaded : Bool
deriving DecidableEq

/-- `Settings.supported_file_types` of `config/settings.py`. -/
def supported_file_types : List String := [".txt", ".pdf", ".docx"]

/-- `Settings.similarity_threshold` of `config/settings.py`. -/
def similarity_threshold : ℚ := 7/10

/-- `Settings.max_context_length` of `config/settings.py`. -/
def max_context_length : Nat := 4000

/-- `SimpleKnowledgeBase._extract_text`: text for a `.txt` file, `None`
otherwise (its own handler turns read errors into `None` as well). -/
def extract_text (f : KBFile) : Option String :=
  if f.suffix = ".txt" then some f.text else none

/-- The chunk records one file contributes in the `load_documents` loop:
nothing when `_extract_text` gives `None` or the falsy empty text, else the
chunks of `_split_text` at the default sizes, numbered by `enumerate`. -/
def fileChunks (f : KBFile) : List DocChunk :=
  match extract_text f with
  | some content =>
    if content ≠ "" then (split_text content).enum.map (fun p => ⟨p.2, f.name, p.1⟩)
    else []
  | none => []

/-- `SimpleKnowledgeBase.load_documents`: a missing root raises
`FileNotFoundError` (re-raised by the broad handler); otherwise every file
whose lowercased suffix is in the allow-list is chunked and `loaded` is set. -/
def load_documents (fs : FileSystem) : Except LoadError KBState :=
  if fs.rootExists then
    .ok ⟨(fs.files.filter (fun f => supported_file_types.contains (pyLower f.suffix))).flatMap
          fileChunks, true⟩
  else .error .pathNotFound

/-- The per-document keyword scoring of `SimpleKnowledgeBase.search`:
word-overlap count, Jaccard similarity when positive, kept above the
hard-coded `0.1` threshold of the source. -/
def searchScore (query_words : List String) (content : String) : Option ℚ :=
  let content_words := wordSet (pyLower content)
  let overlap := interCard query_words content_words
  if 0 < overlap then
    let similarity : ℚ := (overlap : ℚ) / (unionCard query_words content_words : ℚ)
    if 1/10 < similarity then some similarity else none
  else none

/-- The unsorted hit list of `SimpleKnowledgeBase.search` over loaded
documents. -/
def searchHits (docs : List DocChunk) (query : String) : List SearchResult :=
  let query_words := wordSet (pyLower query)
  docs.filterMap (fun d => (searchScore query_words d.content).map (fun s => ⟨d.content, d.source, s⟩))

/-- Descending-score order used by `results.sort(key=..., reverse=True)`. -/
def srGE (a b : SearchResult) : Prop := b.score ≤ a.score

instance : DecidableRel srGE := fun a b => inferInstanceAs (Decidable (b.score ≤ a.score))

instance : IsTotal SearchResult srGE := ⟨fun a b => le_total b.score a.score⟩

instance : IsTrans SearchResult srGE := ⟨fun _ _ _ h1 h2 => le_trans h2 h1⟩

/-- The pure core of `SimpleKnowledgeBase.search` on a loaded store: score,
sort descending by score (Python stable sort), take `top_k`. -/
def search_results (docs : List DocChunk) (query : String) (top_k : Nat) : List SearchResult :=
  ((searchHits docs query).insertionSort srGE).take top_k

/-- `SimpleKnowledgeBase.search` with its load-on-demand step: the call
`await self.load_documents()` stands before the `try` block, so a load
failure escapes to the caller (`Except.error`); the second
`if not self.loaded: return []` guard of the source is kept as written. -/
def searchKB (fs : FileSystem) (kb : KBState) (query : String) (top_k : Nat) :
    Except LoadError (KBState × List SearchResult) :=
  match (if !kb.loaded then load_documents fs else .ok kb) with
  | .error e => .error e
  | .ok kb2 =>
    if !kb2.loaded then .ok (kb2, [])
    else .ok (kb2, search_results kb2.documents query top_k)

/-- A `PropertyListing` record as the filter and scorer read it, with the
`dict.get` defaults already applied (missing text fields read as `""`,
missing numbers as `0`); `images` and `rating` carry no filter or scorer
logic and are omitted. -/
structure Property where
  id : String
  title : String
  description : String
  property_type : String
  suburb : String
  city : String
  price : ℚ
  bedrooms : ℚ
  bathrooms : ℚ
  furnished : Bool
  amenities : List String
deriving DecidableEq

/-- The requirement record `_extract_requirements_semantically` produces
(all fields optional; the list fields default to empty). -/
structure Requirements where
  location : Option String
  property_type : Option String
  bedrooms : Option ℚ
  bathrooms : Option ℚ
  min_price : Option ℚ
  max_price : Option ℚ
  furnished : Option Bool
  preferences : List String
  transaction_type : Option String
  amenities_mentioned : List String
  price_range_indicator : Option String
  urgency : Option String
deriving DecidableEq

/-- The requirement record with every field unset. -/
def noRequirements : Requirements :=
  ⟨none, none, none, none, none, none, none, [], none, [], none, none⟩

/-- Python truthiness of `requirements.get(k)` for a string field: present
and not the empty string. -/
def strActive : Option String → Bool
  | some s => s ≠ ""
  | none => false

/-- The retention predicate of `_apply_semantic_filters` for one listing:
every concretely-specified field must pass; note the type check is the one
direction `req_type in prop_type` only. -/
def includeProperty (r : Requirements) (p : Property) : Bool :=
  (if strActive r.location then
      strIn (pyLower (r.location.getD "")) (pyLower p.suburb) ||
      strIn (pyLower (r.location.getD "")) (pyLower p.city)
    else true) &&
  (if strActive r.property_type then
      strIn (pyLower (r.property_type.getD "")) (pyLower p.property_type)
    else true) &&
  (match r.bedrooms with
    | some n => !decide (p.bedrooms < n)
    | none => true) &&
  (match r.bathrooms with
    | some n => !decide (p.bathrooms < n)
    | none => true) &&
  (match r.min_price with
    | some n => !decide (p.price < n)
    | none => true) &&
  (match r.max_price with
    | some n => !decide (p.price > n)
    | none => true) &&
  (match r.furnished with
    | some f => p.furnished == f
    | none => true)

/-- `SimpleRealEstateAgent._apply_semantic_filters`. -/
def apply_semantic_filters (props : List Property) (r : Requirements) : List Property :=
  props.filter (includeProperty r)

/-- Length of the common run of `a` and `b` starting at `i`, `j` and staying
inside the right bounds `ahi`, `bhi` (building block for the
`difflib.SequenceMatcher` matching blocks; the agent calls it junk-free:
`isjunk=None`, and the autojunk popularity heuristic is not modelled). -/
def runLenAux (a b : List Char) (bhi : Nat) : Nat → Nat → Nat → Nat
  | 0, _, _ => 0
  | n + 1, i, j =>
    if j < bhi ∧ i < a.length ∧ j < b.length ∧ a.getD i ' ' = b.getD j ' ' then
      runLenAux a b bhi n (i + 1) (j + 1) + 1
    else 0

/-- `runLen a b ahi bhi i j`: the common-run length from `i`, `j` (the
counter `ahi - i` makes the recursion structural: it is the bound `i < ahi`). -/
def runLen (a b : List Char) (ahi bhi i j : Nat) : Nat :=
  runLenAux a b bhi (ahi - i) i j

/-- Keep the candidate block when it is strictly longer than the best so
far (first maximum wins, as in the SequenceMatcher scan order). -/
def betterBlock (best cand : Nat × Nat × Nat) : Nat × Nat × Nat :=
  if best.2.2 < cand.2.2 then cand else best

/-- `SequenceMatcher.find_longest_match(alo, ahi, blo, bhi)`: the longest
common block `(i, j, size)` of `a[alo:ahi]` and `b[blo:bhi]`, first maximum
in the (i ascending, j ascending) scan order. -/
def findLongestMatch (a b : List Char) (alo ahi blo bhi : Nat) : Nat × Nat × Nat :=
  (((List.range' alo (ahi - alo)).flatMap
      (fun i => (List.range' blo (bhi - blo)).map
        (fun j => (i, j, runLen a b ahi bhi i j)))).foldl betterBlock (alo, blo, 0))

/-- `SequenceMatcher.get_matching_blocks` total match size over the range
queue, fuel-indexed (the recursion splits the ranges around each block, so
`(ahi - alo) + (bhi - blo) + 1` fuel always suffices). -/
def matchesTotal (a b : List Char) : Nat → Nat → Nat → Nat → Nat → Nat
  | 0, _, _, _, _ => 0
  | fuel + 1, alo, ahi, blo, bhi =>
    let m := findLongestMatch a b alo ahi blo bhi
    if m.2.2 = 0 then 0
    else
      m.2.2 +
      (if alo < m.1 ∧ blo < m.2.1 then matchesTotal a b fuel alo m.1 blo m.2.1 else 0) +
      (if m.1 + m.2.2 < ahi ∧ m.2.1 + m.2.2 < bhi then
        matchesTotal a b fuel (m.1 + m.2.2) ahi (m.2.1 + m.2.2) bhi else 0)

/-- `difflib.SequenceMatcher(None, a, b).ratio()`: `2 M / T` with `M` the
total matched size and `T` the total length (`1.0` when both are empty). -/
def seqRatioQ (a b : List Char) : ℚ :=
  let T := a.length + b.length
  if T = 0 then 1
  else (2 * (matchesTotal a b (T + 1) 0 a.length 0 b.length) : ℚ) / (T : ℚ)

/-- The `prop_text` of the scorer: title, description, type, suburb and the
joined amenities, space-joined and lowercased. -/
def propTextOf (p : Property) : String :=
  pyLower (joinSpace [p.title, p.description, p.property_type, p.suburb, joinSpace p.amenities])

/-- The Jaccard word-set similarity of the scorer (`0` when the union is
empty). -/
def jaccardSim (ql text : String) : ℚ :=
  let qw := wordSet ql
  let tw := wordSet text
  let inter := interCard qw tw
  let uni := unionCard qw tw
  if 0 < uni then (inter : ℚ) / (uni : ℚ) else 0

/-- The `SequenceMatcher` phrase similarity of the scorer: the lowercased
query against `prop_text[:len(query_lower)*3]`. -/
def seqSimOf (ql text : String) : ℚ :=
  seqRatioQ ql.toList (text.toList.take (3 * ql.length))

/-- The blended semantic similarity of the scorer (`jaccard*0.6 + seq*0.4`),
on the lowercased query. -/
def semanticSim (ql : String) (p : Property) : ℚ :=
  jaccardSim ql (propTextOf p) * (6/10) + seqSimOf ql (propTextOf p) * (4/10)

/-- The location factor of `_score_properties_semantically`: exact suburb
`1.0`, partial substring either direction `0.8`, city `0.5`, wrong place
`-0.2`, no (truthy) location requirement `0.5`. -/
def locationScore (r : Requirements) (p : Property) : ℚ :=
  if strActive r.location then
    let rl := pyLower (r.location.getD "")
    let ps := pyLower p.suburb
    let pc := pyLower p.city
    if rl = ps then 1
    else if strIn rl ps || strIn ps rl then 8/10
    else if strIn rl pc then 1/2
    else -(2/10)
  else 1/2

/-- The property-type factor: substring either direction `1.0`, mismatch
`-0.3`, no (truthy) type requirement `0.5`. -/
def typeScore (r : Requirements) (p : Property) : ℚ :=
  if strActive r.property_type then
    let rt := pyLower (r.property_type.getD "")
    let pt := pyLower p.property_type
    if strIn rt pt || strIn pt rt then 1 else -(3/10)
  else 1/2

/-- The combined listing text the preference factor scans: lowercased
title, description and amenities. -/
def combinedText (p : Property) : String :=
  pyLower p.title ++ " " ++ pyLower p.description ++ " " ++ joinSpace (p.amenities.map pyLower)

/-- One preference tag hits when it is a literal substring of the combined
text or one of its hard-wired synonym lists does. -/
def prefHit (combined : String) (pref : String) : Bool :=
  let pl := pyLower pref
  if strIn pl combined then true
  else if pl = "family-friendly" &&
      ["family", "kids", "children", "school", "playground"].any (fun w => strIn w combined) then
    true
  else if pl = "quiet" &&
      ["quiet", "peaceful", "calm", "serene"].any (fun w => strIn w combined) then
    true
  else if pl = "modern" &&
      ["modern", "new", "updated", "renovated", "contemporary"].any (fun w => strIn w combined) then
    true
  else false

/-- The preference factor: fraction of requested tags that hit, `0.5` when
none are requested. -/
def preferenceScore (r : Requirements) (p : Property) : ℚ :=
  if r.preferences = [] then 1/2
  else (r.preferences.countP (prefHit (combinedText p)) : ℚ) / (r.preferences.length : ℚ)

/-- The mean catalog price the price factor compares against (`100000` for
an empty candidate list, as in the source conditional). -/
def avgPrice (props : List Property) : ℚ :=
  if props = [] then 100000 else (props.map Property.price).sum / (props.length : ℚ)

/-- The price-appropriateness factor, keyed by the price-range indicator
against the candidate-set mean. -/
def priceScore (props : List Property) (r : Requirements) (p : Property) : ℚ :=
  if strActive r.price_range_indicator then
    let ap := avgPrice props
    if r.price_range_indicator.getD "" = "affordable" then
      if p.price ≤ ap * (8/10) then 1
      else if p.price ≤ ap then 6/10
      else 2/10
    else if r.price_range_indicator.getD "" = "luxury" then
      if p.price ≥ ap * (15/10) then 1
      else if p.price ≥ ap * (12/10) then 7/10
      else 3/10
    else 1/2
  else 1/2

/-- The amenities factor: fraction of explicitly mentioned amenities found
by substring among the listing's lowercased amenities, `0.5` when none are
mentioned. -/
def amenitiesScore (r : Requirements) (p : Property) : ℚ :=
  if r.amenities_mentioned = [] then 1/2
  else
    (r.amenities_mentioned.countP
        (fun am => (p.amenities.map pyLower).any (fun a => strIn (pyLower am) (pyLower a))) : ℚ) /
      (r.amenities_mentioned.length : ℚ)

/-- The weighted six-factor total of `_score_properties_semantically` for
one listing, before clamping (weights 0.30, 0.25, 0.15, 0.15, 0.10, 0.05). -/
def totalScore (props : List Property) (query : String) (r : Requirements) (p : Property) : ℚ :=
  semanticSim (pyLower query) p * (30/100) +
  locationScore r p * (25/100) +
  typeScore r p * (15/100) +
  preferenceScore r p * (15/100) +
  priceScore props r p * (10/100) +
  amenitiesScore r p * (5/100)

/-- Python `round(x, 3)` on the clamped score (Mathlib `round`; see the
file comment on midpoints). -/
def roundTo3 (x : ℚ) : ℚ := ((round (x * 1000) : ℤ) : ℚ) / 1000

/-- The surfaced `match_score`: the total clamped to `[0, 1]` and rounded
to three decimals. -/
def matchScore (props : List Property) (query : String) (r : Requirements) (p : Property) : ℚ :=
  roundTo3 (max 0 (min 1 (totalScore props query r p)))

/-- `_score_properties_semantically`: every candidate annotated with its
match score (the market-context lookup feeds only logging, not the score). -/
def score_properties_semantically (props : List Property) (query : String) (r : Requirements) :
    List (Property × ℚ) :=
  props.map (fun p => (p, matchScore props query r p))

/-- One entry of a conversation history (`role`, `content`). -/
structure Msg where
  role : String
  content : String
deriving DecidableEq

/-- The history update of `process_query`: extend with the user+assistant
pair, then keep the last ten entries (`conversation_history[-10:]`). -/
def updateHistory (history : List Msg) (query response : String) : List Msg :=
  let h2 := history ++ [⟨"user", query⟩, ⟨"assistant", response⟩]
  h2.drop (h2.length - 10)

/-- The categorized user-safe messages of `_generate_response`. -/
def auth_error_text : String :=
  "I'm experiencing authentication issues with the AI service. Please check the API configuration."

/-- Rate-limit category message of `_generate_response`. -/
def rate_error_text : String :=
  "I'm experiencing rate limiting from the AI service. Please try again in a moment."

/-- Network category message of `_generate_response`. -/
def network_error_text : String :=
  "I'm experiencing network connectivity issues. Please try again."

/-- Fallback category message of `_generate_response`. -/
def generic_error_text : String :=
  "I'm experiencing technical difficulties with the AI service. Please try again later."

/-- The error categorization of `_generate_response`: substring checks over
the lowercased exception text. -/
def errorText (err : String) : String :=
  let e := pyLower err
  if strIn "api key" e || strIn "authentication" e || strIn "401" e then auth_error_text
  else if strIn "rate limit" e || strIn "quota" e || strIn "429" e then rate_error_text
  else if strIn "network" e || strIn "connection" e then network_error_text
  else generic_error_text

/-- `_generate_response` as a function of the generation outcome: the broad
handler turns every exception into a categorized message string, and an
empty generated text gives the fixed apology — it never re-raises. -/
def generate_response (gen : Except String String) : String :=
  match gen with
  | .ok t => if t ≠ "" then t else "I apologize, but I couldn't generate a response at this time."
  | .error e => errorText e

/-- `_calculate_confidence`: flat `0.3` without search results, else the
weighted blend of mean score, response length and source count, capped at
`1.0` and rounded to two decimals. -/
def calculate_confidence (rs : List SearchResult) (response : String) : ℚ :=
  if rs = [] then 3/10
  else
    let avg := (rs.map SearchResult.score).sum / (rs.length : ℚ)
    let response_factor := min ((response.length : ℚ) / 500) 1
    let source_factor := min ((rs.length : ℚ) / 5) 1
    ((round ((min (avg * (5/10) + response_factor * (3/10) + source_factor * (2/10)) 1) * 100) : ℤ) : ℚ) / 100

/-- The fields of the `ChatResponse` the claims speak about. -/
structure ChatOut where
  response : String
  sources : List String
  confidence : ℚ
deriving DecidableEq

/-- The pure core of `process_query`: the knowledge-search outcome (which
may carry the load error `searchKB` re-raises) and the generation outcome
are inputs.  An exception from search is caught by the outer handler and
gives the fixed apology with confidence `0.0` and no history update; a
generation failure never raises (`generate_response` handles it), so the
normal path computes confidence and sources from the search results and
stores the extended, trimmed history. -/
def process_query (searchOut : Except LoadError (List SearchResult))
    (gen : Except String String) (query : String) (history : List Msg) : ChatOut × List Msg :=
  match searchOut with
  | .error _ =>
    (⟨"I apologize, but I'm experiencing technical difficulties. Please try again later.", [], 0⟩,
      history)
  | .ok rs =>
    let response := generate_response gen
    let confidence := calculate_confidence rs response
    (⟨response, rs.map SearchResult.source, confidence⟩, updateHistory history query response)

/-- A requirement record with only the property type set (isolates the type
clause of the filter). -/
def typeOnlyReq (t : String) : Requirements :=
  ⟨none, some t, none, none, none, none, none, [], none, [], none, none⟩

/-- A requirement record with only the location set (isolates the location
factor of the scorer). -/
def locOnlyReq (l : String) : Requirements :=
  ⟨some l, none, none, none, none, none, none, [], none, [], none, none⟩

/-- A concrete catalog listing of type "apartment". -/
def aptListing : Property :=
  ⟨"p1", "Cozy unit", "Two bedroom unit", "apartment", "kilimani", "nairobi",
    100000, 2, 1, true, []⟩

/-- A bare listing in the suburb "kilimani" (all other text fields empty). -/
def kilimaniListing : Property := ⟨"a", "", "", "", "kilimani", "", 0, 0, 0, false, []⟩

/-- The same bare listing, in the suburb "kilimani west". -/
def kilimaniWestListing : Property := ⟨"a", "", "", "", "kilimani west", "", 0, 0, 0, false, []⟩

/-- The same bare listing, in the suburb "karen". -/
def karenListing : Property := ⟨"a", "", "", "", "karen", "", 0, 0, 0, false, []⟩

/-- A concrete loaded document chunk. -/
def docHello : DocChunk := ⟨"hello world", "market.txt", 0⟩

/-! Lemmas about the chunker. -/

theorem splitGo_succ (text : List Char) (cs ov n start : Nat) (acc : List String) :
    splitGo text cs ov (n + 1) start acc =
      if start < text.length then
        splitGo text cs ov n (cutPos text cs ov start - ov)
          (if pyStrip (String.mk ((text.drop start).take (cutPos text cs ov start - start))) = ""
            then acc
            else acc ++ [pyStrip (String.mk ((text.drop start).take (cutPos text cs ov start - start)))])
      else some acc := rfl

theorem findCut_bounds (text : List Char) (endPos : Nat) :
    ∀ n e, findCut text endPos n = some e → ∃ i, 1 ≤ i ∧ i ≤ n ∧ e = endPos - i + 1 := by
  intro n
  induction n with
  | zero => intro e h; exact absurd h (by simp [findCut])
  | succ m ih =>
    intro e h
    rw [findCut] at h
    split at h
    · injection h with h2
      exact ⟨m + 1, by omega, le_refl _, h2.symm⟩
    · obtain ⟨i, h1, h2, h3⟩ := ih e h
      exact ⟨i, h1, by omega, h3⟩

theorem cutPos_le (text : List Char) (cs ov start : Nat) :
    cutPos text cs ov start ≤ start + cs := by
  unfold cutPos
  rcases hfc : findCut text (start + cs) (min 100 (cs - ov)) with _ | e
  · simp only [hfc]
    split <;> omega
  · obtain ⟨i, h1, h2, h3⟩ := findCut_bounds text (start + cs) _ e hfc
    have h4 : i ≤ cs - ov := le_trans h2 (min_le_right _ _)
    simp only [hfc]
    split <;> omega

theorem cutPos_ge (text : List Char) (cs ov start : Nat) (hov : ov < cs) :
    start + ov + 1 ≤ cutPos text cs ov start := by
  unfold cutPos
  rcases hfc : findCut text (start + cs) (min 100 (cs - ov)) with _ | e
  · simp only [hfc]
    split <;> omega
  · obtain ⟨i, h1, h2, h3⟩ := findCut_bounds text (start + cs) _ e hfc
    have h4 : i ≤ cs - ov := le_trans h2 (min_le_right _ _)
    simp only [hfc]
    split <;> omega

theorem splitGo_isSome (text : List Char) (cs ov : Nat) (hov : ov < cs) :
    ∀ fuel start acc, text.length - start < fuel → (splitGo text cs ov fuel start acc).isSome := by
  intro fuel
  induction fuel with
  | zero => intro start acc h; omega
  | succ n ih =>
    intro start acc h
    rw [splitGo_succ]
    by_cases hs : start < text.length
    · rw [if_pos hs]
      apply ih
      have h1 := cutPos_ge text cs ov start hov
      omega
    · rw [if_neg hs]; rfl

theorem dropWhile_head?_false (p : Char → Bool) :
    ∀ (l : List Char) (a : Char), (l.dropWhile p).head? = some a → p a = false := by
  intro l
  induction l with
  | nil => intro a h; exact absurd h (by simp)
  | cons b t ih =>
    intro a h
    by_cases hb : p b
    · rw [List.dropWhile_cons_of_pos hb] at h
      exact ih a h
    · rw [List.dropWhile_cons_of_neg hb] at h
      have hba : b = a := by simpa using h
      subst hba
      simpa using hb

theorem dropWhile_eq_self_of_head (p : Char → Bool) (l : List Char)
    (h : ∀ a, l.head? = some a → p a = false) : l.dropWhile p = l := by
  cases l with
  | nil => rfl
  | cons b t =>
    have hb := h b rfl
    simp [List.dropWhile_cons, hb]

theorem suffix_getLast? {s l : List Char} (h1 : s <:+ l) (h2 : s ≠ []) :
    s.getLast? = l.getLast? := by
  obtain ⟨t, rfl⟩ := h1
  exact (List.getLast?_append_of_ne_nil t h2).symm

theorem trimChars_head (l : List Char) (a : Char) (h : (trimChars l).head? = some a) :
    pySpace a = false := by
  unfold trimChars at h
  rw [List.head?_reverse] at h
  have hXne : (l.dropWhile pySpace).reverse.dropWhile pySpace ≠ [] := by
    intro hx
    rw [hx] at h
    exact absurd h (by simp)
  have h2 : ((l.dropWhile pySpace).reverse).getLast? = some a := by
    rw [← suffix_getLast? (List.dropWhile_suffix pySpace) hXne]
    exact h
  rw [List.getLast?_reverse] at h2
  exact dropWhile_head?_false pySpace _ a h2

theorem trimChars_getLast (l : List Char) (a : Char) (h : (trimChars l).getLast? = some a) :
    pySpace a = false := by
  unfold trimChars at h
  rw [List.getLast?_reverse] at h
  exact dropWhile_head?_false pySpace _ a h

theorem trimChars_idem (l : List Char) : trimChars (trimChars l) = trimChars l := by
  have h1 : (trimChars l).dropWhile pySpace = trimChars l :=
    dropWhile_eq_self_of_head _ _ (fun a ha => trimChars_head l a ha)
  show (((trimChars l).dropWhile pySpace).reverse.dropWhile pySpace).reverse = trimChars l
  rw [h1]
  have h2 : (trimChars l).reverse.dropWhile pySpace = (trimChars l).reverse := by
    apply dropWhile_eq_self_of_head
    intro a ha
    rw [List.head?_reverse] at ha
    exact trimChars_getLast l a ha
  rw [h2, List.reverse_reverse]

theorem pyStrip_idem (s : String) : pyStrip (pyStrip s) = pyStrip s := by
  unfold pyStrip
  have h : (String.mk (trimChars s.toList)).toList = trimChars s.toList := rfl
  rw [h, trimChars_idem]

theorem pyStrip_length_le (s : String) : (pyStrip s).length ≤ s.length := by
  show (trimChars s.toList).length ≤ s.toList.length
  unfold trimChars
  rw [List.length_reverse]
  calc ((s.toList.dropWhile pySpace).reverse.dropWhile pySpace).length
      ≤ (s.toList.dropWhile pySpace).reverse.length :=
        (List.dropWhile_suffix pySpace).sublist.length_le
    _ = (s.toList.dropWhile pySpace).length := List.length_reverse _
    _ ≤ s.toList.length := (List.dropWhile_suffix pySpace).sublist.length_le

theorem splitGo_chunks (text : List Char) (cs ov : Nat) :
    ∀ fuel start acc l,
      (∀ c ∈ acc, c ≠ "" ∧ pyStrip c = c ∧ c.length ≤ cs) →
      splitGo text cs ov fuel start acc = some l →
      ∀ c ∈ l, c ≠ "" ∧ pyStrip c = c ∧ c.length ≤ cs := by
  intro fuel
  induction fuel with
  | zero => intro start acc l hacc h; exact absurd h (by simp [splitGo])
  | succ n ih =>
    intro start acc l hacc h
    rw [splitGo_succ] at h
    by_cases hs : start < text.length
    · rw [if_pos hs] at h
      refine ih _ _ _ ?_ h
      intro c hc
      by_cases hch :
          pyStrip (String.mk ((text.drop start).take (cutPos text cs ov start - start))) = ""
      · rw [if_pos hch] at hc
        exact hacc c hc
      · rw [if_neg hch] at hc
        rcases List.mem_append.1 hc with hc2 | hc2
        · exact hacc c hc2
        · have hceq :
              c = pyStrip (String.mk ((text.drop start).take (cutPos text cs ov start - start))) := by
            simpa using hc2
          subst hceq
          refine ⟨hch, pyStrip_idem _, ?_⟩
          have hlen1 :
              (pyStrip (String.mk ((text.drop start).take (cutPos text cs ov start - start)))).length
                ≤ ((text.drop start).take (cutPos text cs ov start - start)).length :=
            pyStrip_length_le _
          have hlen2 : ((text.drop start).take (cutPos text cs ov start - start)).length
              ≤ cutPos text cs ov start - start := by
            simpa using List.length_take_le (cutPos text cs ov start - start) (text.drop start)
          have hlen3 := cutPos_le text cs ov start
          omega
    · rw [if_neg hs] at h
      injection h with h
      subst h
      exact hacc

theorem splitGo_stall (fuel : Nat) :
    ∀ acc, splitGo "aaaa".toList 2 2 fuel 0 acc = none := by
  induction fuel with
  | zero => intro acc; rfl
  | succ n ih =>
    intro acc
    have hstep : splitGo "aaaa".toList 2 2 (n + 1) 0 acc =
        splitGo "aaaa".toList 2 2 n 0 (acc ++ ["aa"]) := rfl
    rw [hstep]
    exact ih _

/-- C7 counterexample: `_split_text` returns the short text as-is, not
trimmed — `split(" a ")` is `[" a "]` while the trimmed text is `"a"`, and
the all-whitespace `" "` still yields the single chunk `[" "]` instead of
none. -/
theorem C7_counterexample :
    split_text " a " = [" a "] ∧ pyStrip " a " = "a" ∧ (" a " : String) ≠ "a" ∧
      split_text " " = [" "] ∧ pyStrip " " = "" :=
  ⟨by decide, by decide, by decide, by decide, by decide⟩

/-- C7 (amended): for every text with `len(text) ≤ chunk_size`, `_split_text`
returns exactly one chunk equal to the text itself, untrimmed (so an
all-whitespace input yields that whitespace chunk, not nothing), for any
overlap and any fuel. -/
theorem C7_single_chunk_whole (t : String) (cs ov fuel : Nat) (h : t.length ≤ cs) :
    split_textFuel fuel t cs ov = some [t] := by
  unfold split_textFuel
  rw [if_pos h]

theorem C7_witness :
    ("Prices rise." : String).length ≤ 1000 ∧
      split_textFuel 0 "Prices rise." 1000 200 = some ["Prices rise."] :=
  ⟨by decide, C7_single_chunk_whole "Prices rise." 1000 200 0 (by decide)⟩

/-- C8 counterexample: the source has no guard against a non-positive
stride — with `chunk_size = overlap = 2` on the four-character text
`"aaaa"` the loop recomputes `start = 0` forever and never exits. -/
theorem C8_counterexample : ¬ SplitTerminates "aaaa" 2 2 := by
  rintro ⟨fuel, h⟩
  have h2 : split_textFuel fuel "aaaa" 2 2 = splitGo "aaaa".toList 2 2 fuel 0 [] := by
    unfold split_textFuel
    rw [if_neg (by decide)]
  rw [h2, splitGo_stall fuel []] at h
  exact absurd h (by simp)

/-- C8 (amended): the `_split_text` loop terminates whenever
`overlap < chunk_size` (each iteration then advances `start` by at least
one) and trivially when the text fits in one chunk; the source has no
stride guard, so nothing smaller makes it terminate in general. -/
theorem C8_terminates_when_guarded (t : String) (cs ov : Nat)
    (h : ov < cs ∨ t.length ≤ cs) : SplitTerminates t cs ov := by
  rcases h with h | h
  · refine ⟨t.length + 1, ?_⟩
    unfold split_textFuel
    by_cases hl : t.length ≤ cs
    · rw [if_pos hl]; rfl
    · rw [if_neg hl]
      apply splitGo_isSome _ _ _ h
      have h2 : t.toList.length = t.length := rfl
      omega
  · exact ⟨1, by unfold split_textFuel; rw [if_pos h]; rfl⟩

theorem C8_witness : SplitTerminates "aaaa" 200 1000 ∧ SplitTerminates "hello there" 4 1 :=
  ⟨C8_terminates_when_guarded "aaaa" 200 1000 (Or.inr (by decide)),
   C8_terminates_when_guarded "hello there" 4 1 (Or.inl (by decide))⟩

/-- C10: for a text longer than `chunk_size`, every chunk any terminating
run of `_split_text` returns is non-empty, carries no leading or trailing
whitespace (`strip` is applied and empties are dropped), and is at most
`chunk_size` characters long. -/
theorem C10_chunks_trimmed_bounded (t : String) (cs ov fuel : Nat) (l : List String)
    (hlen : cs < t.length) (h : split_textFuel fuel t cs ov = some l) :
    ∀ c ∈ l, c ≠ "" ∧ pyStrip c = c ∧ c.length ≤ cs := by
  unfold split_textFuel at h
  rw [if_neg (by omega)] at h
  exact splitGo_chunks t.toList cs ov fuel 0 [] l (by simp) h

theorem C10_witness :
    (". cd" : String) ≠ "" ∧ pyStrip ". cd" = ". cd" ∧ (". cd" : String).length ≤ 4 :=
  C10_chunks_trimmed_bounded "ab. cd" 4 1 10 ["ab.", ". cd", "d"] (by decide) (by decide)
    ". cd" (by decide)

/-- C3: the filter returns an order-preserving subset of its input
(`List.Sublist`), and the all-unset requirement record retains every
listing — a null requirement field imposes no constraint. -/
theorem C3_filter_sublist_null_unconstrained (props : List Property) (r : Requirements) :
    (apply_semantic_filters props r).Sublist props ∧
      apply_semantic_filters props noRequirements = props := by
  constructor
  · exact List.filter_sublist props
  · apply List.filter_eq_self.mpr
    intro p _
    rfl

/-- C9 counterexample: the filter's type clause checks only
`req_type in prop_type`; requesting the type "apartments" drops the
"apartment" listing even though the listing's type is a substring of the
requested one (the either-direction check lives in the scorer, not the
filter). -/
theorem C9_counterexample :
    apply_semantic_filters [aptListing] (typeOnlyReq "apartments") = [] ∧
      strIn (pyLower aptListing.property_type) (pyLower "apartments") = true := by
  have h : includeProperty (typeOnlyReq "apartments") aptListing = false := by decide
  exact ⟨by simp [apply_semantic_filters, h], by decide⟩

/-- C9 (amended): with a concretely specified (non-empty) property type and
every other field unset, the filter retains a listing iff the requested
type is a substring of the listing's type — one direction only,
case-insensitive. -/
theorem C9_type_filter_one_direction (t : String) (ht : t ≠ "") (props : List Property)
    (p : Property) :
    includeProperty (typeOnlyReq t) p = strIn (pyLower t) (pyLower p.property_type) ∧
      apply_semantic_filters props (typeOnlyReq t) =
        props.filter (fun q => strIn (pyLower t) (pyLower q.property_type)) := by
  have hone : ∀ q : Property,
      includeProperty (typeOnlyReq t) q = strIn (pyLower t) (pyLower q.property_type) := by
    intro q
    unfold includeProperty typeOnlyReq
    simp [strActive, ht]
  exact ⟨hone p, by
    unfold apply_semantic_filters
    exact List.filter_congr (fun q _ => hone q)⟩

theorem C9_witness :
    includeProperty (typeOnlyReq "apart") aptListing =
      strIn (pyLower "apart") (pyLower aptListing.property_type) :=
  (C9_type_filter_one_direction "apart" (by decide) [] aptListing).1

/-- C1 (the code evaluated at the failing input): with the store unloaded
and the corpus root missing, `search` itself surfaces the load failure —
`await self.load_documents()` stands before the `try` block and
`load_documents` re-raises `FileNotFoundError`, so the caller of `search`
receives the exception (`Except.error`) instead of the empty result list
the unreachable `if not self.loaded: return []` guard intended. -/
theorem C1_search_raises_on_load_failure :
    searchKB ⟨false, []⟩ ⟨[], false⟩ "apartment prices in Kilimani" 5 =
      Except.error LoadError.pathNotFound := rfl

/-- C2 counterexample: a 401-style generation failure with no search
results yields the authentication message with confidence 0.3, not 0.0 —
`_generate_response` swallows the exception and returns a message string
that `process_query` then treats as a normal response, and
`_calculate_confidence` gives the flat 0.3 when search returned nothing. -/
theorem C2_counterexample :
    (process_query (.ok []) (.error "401 Unauthorized") "q" []).1 =
      ⟨auth_error_text, [], 3/10⟩ ∧ (3/10 : ℚ) ≠ 0 :=
  ⟨rfl, by norm_num⟩

/-- C2 (amended): on every generation failure `process_query` returns the
categorized user-safe message and never re-raises, but the confidence and
the source list are computed from the search results exactly as for a
successful generation — flat 0.3 (not 0.0) when search returned nothing,
and the search results' sources (not forced empty) otherwise; a 401-style
error maps to the authentication-specific message. -/
theorem C2_generation_failure_degraded (rs : List SearchResult) (e query : String)
    (hist : List Msg) :
    (process_query (.ok rs) (.error e) query hist).1.response = errorText e ∧
    (process_query (.ok rs) (.error e) query hist).1.sources = rs.map SearchResult.source ∧
    (process_query (.ok rs) (.error e) query hist).1.confidence =
      calculate_confidence rs (errorText e) ∧
    calculate_confidence [] (errorText e) = 3/10 ∧
    errorText "401 Unauthorized" = auth_error_text ∧
    strIn "authentication" (pyLower auth_error_text) = true :=
  ⟨rfl, rfl, rfl, rfl, by decide, by decide⟩

/-- C6: a successful `process_query` turn stores exactly the old history
extended by one user+assistant pair and trimmed to the last ten entries:
the stored history is `(history ++ pair)[-10:]`, has at most ten entries,
and is a suffix (most recent entries, order preserved) of the extended
history. -/
theorem C6_history_append_capped (rs : List SearchResult) (gen : Except String String)
    (query response : String) (hist : List Msg) :
    (process_query (.ok rs) gen query hist).2 =
      updateHistory hist query (generate_response gen) ∧
    updateHistory hist query response =
      (hist ++ [Msg.mk "user" query, Msg.mk "assistant" response]).drop ((hist.length + 2) - 10) ∧
    (updateHistory hist query response).length ≤ 10 ∧
    (updateHistory hist query response) <:+
      (hist ++ [Msg.mk "user" query, Msg.mk "assistant" response]) := by
  refine ⟨rfl, ?_, ?_, ?_⟩
  · simp [updateHistory]
  · simp only [updateHistory, List.length_drop, List.length_append, List.length_cons,
      List.length_nil]
    omega
  · exact List.drop_suffix _ _

theorem interCard_le_unionCard (a b : List String) : interCard a b ≤ unionCard a b :=
  le_trans (List.length_filter_le _ _) (Nat.le_add_right _ _)

theorem searchScore_bounds (qw : List String) (content : String) (s : ℚ)
    (h : searchScore qw content = some s) : 0 ≤ s ∧ 1/10 < s ∧ s ≤ 1 := by
  simp only [searchScore] at h
  split_ifs at h with h1 h2
  · injection h with h3
    subst h3
    have hle : interCard qw (wordSet (pyLower content)) ≤
        unionCard qw (wordSet (pyLower content)) := interCard_le_unionCard _ _
    have hu : 0 < unionCard qw (wordSet (pyLower content)) := lt_of_lt_of_le h1 hle
    refine ⟨le_of_lt (lt_trans (by norm_num) h2), h2, ?_⟩
    rw [div_le_one (by exact_mod_cast hu)]
    exact_mod_cast hle

/-- C5 counterexample: a store holding the single chunk "hello world"
searched with "hello" returns that chunk with score 0.5 — the hard-coded
0.1 cut of `SimpleKnowledgeBase.search` lets it through although 0.5 is
not above the configured `similarity_threshold` of 0.7 (which this search
never reads). -/
theorem C5_counterexample :
    search_results [docHello] "hello" 5 =
      [SearchResult.mk "hello world" "market.txt" (1/2)] ∧
    ¬ similarity_threshold < 1/2 := by
  constructor
  · have hi : interCard (wordSet (pyLower "hello")) (wordSet (pyLower "hello world")) = 1 := by
      decide
    have hu : unionCard (wordSet (pyLower "hello")) (wordSet (pyLower "hello world")) = 2 := by
      decide
    have hs : searchScore (wordSet (pyLower "hello")) "hello world" = some (1/2) := by
      simp only [searchScore, hi, hu]
      norm_num
    simp only [search_results, searchHits, docHello, List.filterMap_cons, List.filterMap_nil, hs]
    norm_num [List.insertionSort, List.orderedInsert]
  · unfold similarity_threshold
    norm_num

/-- C5 (amended): `search` returns at most `top_k` results, sorted in
descending score order, and every returned score `s` satisfies
`0 ≤ s ≤ 1` and `s > 0.1` — the hard-coded `0.1` of the source, not the
configured `similarity_threshold = 0.7`, which this search never reads. -/
theorem C5_search_sorted_bounded (docs : List DocChunk) (query : String) (top_k : Nat) :
    (search_results docs query top_k).length ≤ top_k ∧
    List.Sorted srGE (search_results docs query top_k) ∧
    (search_results docs query top_k).all
      (fun x => decide (0 ≤ x.score ∧ 1/10 < x.score ∧ x.score ≤ 1)) = true := by
  refine ⟨?_, ?_, ?_⟩
  · exact List.length_take_le _ _
  · exact (List.sorted_insertionSort srGE _).sublist (List.take_sublist _ _)
  · rw [List.all_eq_true]
    intro x hx
    have hx2 : x ∈ (searchHits docs query).insertionSort srGE :=
      (List.take_sublist _ _).mem hx
    rw [List.mem_insertionSort] at hx2
    simp only [searchHits, List.mem_filterMap] at hx2
    obtain ⟨d, hd, hmap⟩ := hx2
    rcases hss : searchScore (wordSet (pyLower query)) d.content with _ | s
    · rw [hss] at hmap
      exact absurd hmap (by simp)
    · rw [hss] at hmap
      rw [show Option.map (fun sc => SearchResult.mk d.content d.source sc) (some s) =
          some (SearchResult.mk d.content d.source s) from rfl, Option.some.injEq] at hmap
      obtain ⟨hb1, hb2, hb3⟩ := searchScore_bounds _ _ _ hss
      rw [decide_eq_true_eq, ← hmap]
      exact ⟨hb1, hb2, hb3⟩

theorem runLenAux_le_n (a b : List Char) (bhi : Nat) :
    ∀ n i j, runLenAux a b bhi n i j ≤ n := by
  intro n
  induction n with
  | zero => intro i j; simp [runLenAux]
  | succ m ih =>
    intro i j
    rw [runLenAux]
    split
    · exact Nat.succ_le_succ (ih _ _)
    · exact Nat.zero_le _

theorem runLenAux_le_bhi (a b : List Char) (bhi : Nat) :
    ∀ n i j, runLenAux a b bhi n i j ≤ bhi - j := by
  intro n
  induction n with
  | zero => intro i j; simp [runLenAux]
  | succ m ih =>
    intro i j
    rw [runLenAux]
    split
    · have h1 := ih (i + 1) (j + 1)
      rename_i hcond
      omega
    · exact Nat.zero_le _

theorem runLen_le_a (a b : List Char) (ahi bhi i j : Nat) :
    runLen a b ahi bhi i j ≤ ahi - i := runLenAux_le_n a b bhi (ahi - i) i j

theorem runLen_le_b (a b : List Char) (ahi bhi i j : Nat) :
    runLen a b ahi bhi i j ≤ bhi - j := runLenAux_le_bhi a b bhi (ahi - i) i j

theorem foldl_preserve {α β : Type} (f : β → α → β) (P : β → Prop) :
    ∀ (l : List α) (b : β), P b → (∀ x ∈ l, ∀ acc, P acc → P (f acc x)) → P (l.foldl f b) := by
  intro l
  induction l with
  | nil => intro b hb _; exact hb
  | cons x t ih =>
    intro b hb hstep
    exact ih (f b x) (hstep x (List.mem_cons_self x t) b hb)
      (fun y hy acc hacc => hstep y (List.mem_cons_of_mem x hy) acc hacc)

theorem findLongestMatch_bounds (a b : List Char) (alo ahi blo bhi : Nat) :
    (findLongestMatch a b alo ahi blo bhi).2.2 = 0 ∨
      (alo ≤ (findLongestMatch a b alo ahi blo bhi).1 ∧
       (findLongestMatch a b alo ahi blo bhi).1 + (findLongestMatch a b alo ahi blo bhi).2.2 ≤ ahi ∧
       blo ≤ (findLongestMatch a b alo ahi blo bhi).2.1 ∧
       (findLongestMatch a b alo ahi blo bhi).2.1 + (findLongestMatch a b alo ahi blo bhi).2.2 ≤ bhi) := by
  unfold findLongestMatch
  apply foldl_preserve (betterBlock)
    (fun m => m.2.2 = 0 ∨ (alo ≤ m.1 ∧ m.1 + m.2.2 ≤ ahi ∧ blo ≤ m.2.1 ∧ m.2.1 + m.2.2 ≤ bhi))
  · exact Or.inl rfl
  · intro x hx acc hacc
    unfold betterBlock
    split
    · rw [List.mem_flatMap] at hx
      obtain ⟨i, hi, hx2⟩ := hx
      rw [List.mem_map] at hx2
      obtain ⟨j, hj, hx3⟩ := hx2
      rw [List.mem_range'_1] at hi
      rw [List.mem_range'_1] at hj
      subst hx3
      dsimp only
      by_cases hz : runLen a b ahi bhi i j = 0
      · exact Or.inl hz
      · right
        have h1 := runLen_le_a a b ahi bhi i j
        have h2 := runLen_le_b a b ahi bhi i j
        refine ⟨by omega, by omega, by omega, by omega⟩
    · exact hacc

theorem matchesTotal_le (a b : List Char) :
    ∀ fuel alo ahi blo bhi, matchesTotal a b fuel alo ahi blo bhi ≤ min (ahi - alo) (bhi - blo) := by
  intro fuel
  induction fuel with
  | zero => intro alo ahi blo bhi; simp [matchesTotal]
  | succ n ih =>
    intro alo ahi blo bhi
    rw [matchesTotal]
    rcases findLongestMatch_bounds a b alo ahi blo bhi with hz | ⟨h1, h2, h3, h4⟩
    · rw [if_pos hz]
      exact Nat.zero_le _
    · split
      · exact Nat.zero_le _
      · have hL : (if alo < (findLongestMatch a b alo ahi blo bhi).1 ∧
              blo < (findLongestMatch a b alo ahi blo bhi).2.1 then
            matchesTotal a b n alo (findLongestMatch a b alo ahi blo bhi).1 blo
              (findLongestMatch a b alo ahi blo bhi).2.1 else 0) ≤
            min ((findLongestMatch a b alo ahi blo bhi).1 - alo)
              ((findLongestMatch a b alo ahi blo bhi).2.1 - blo) := by
          split
          · exact ih _ _ _ _
          · exact Nat.zero_le _
        have hR : (if (findLongestMatch a b alo ahi blo bhi).1 +
                (findLongestMatch a b alo ahi blo bhi).2.2 < ahi ∧
              (findLongestMatch a b alo ahi blo bhi).2.1 +
                (findLongestMatch a b alo ahi blo bhi).2.2 < bhi then
            matchesTotal a b n
              ((findLongestMatch a b alo ahi blo bhi).1 + (findLongestMatch a b alo ahi blo bhi).2.2)
              ahi
              ((findLongestMatch a b alo ahi blo bhi).2.1 + (findLongestMatch a b alo ahi blo bhi).2.2)
              bhi else 0) ≤
            min (ahi - ((findLongestMatch a b alo ahi blo bhi).1 +
                (findLongestMatch a b alo ahi blo bhi).2.2))
              (bhi - ((findLongestMatch a b alo ahi blo bhi).2.1 +
                (findLongestMatch a b alo ahi blo bhi).2.2)) := by
          split
          · exact ih _ _ _ _
          · exact Nat.zero_le _
        omega

theorem seqRatioQ_bounds (a b : List Char) : 0 ≤ seqRatioQ a b ∧ seqRatioQ a b ≤ 1 := by
  unfold seqRatioQ
  dsimp only
  split
  · norm_num
  · rename_i hT
    have hM := matchesTotal_le a b (a.length + b.length + 1) 0 a.length 0 b.length
    have hM2 : 2 * matchesTotal a b (a.length + b.length + 1) 0 a.length 0 b.length ≤
        a.length + b.length := by omega
    have hTpos : (0 : ℚ) < ((a.length + b.length : Nat) : ℚ) := by
      exact_mod_cast Nat.pos_of_ne_zero hT
    constructor
    · positivity
    · rw [div_le_one hTpos]
      exact_mod_cast hM2

theorem jaccardSim_bounds (ql t : String) : 0 ≤ jaccardSim ql t ∧ jaccardSim ql t ≤ 1 := by
  unfold jaccardSim
  dsimp only
  split
  · rename_i hu
    have hle := interCard_le_unionCard (wordSet ql) (wordSet t)
    constructor
    · positivity
    · rw [div_le_one (by exact_mod_cast hu)]
      exact_mod_cast hle
  · norm_num

theorem semanticSim_bounds (ql : String) (p : Property) :
    0 ≤ semanticSim ql p ∧ semanticSim ql p ≤ 1 := by
  unfold semanticSim seqSimOf
  have h1 := jaccardSim_bounds ql (propTextOf p)
  have h2 := seqRatioQ_bounds ql.toList ((propTextOf p).toList.take (3 * ql.length))
  constructor
  · nlinarith [h1.1, h2.1]
  · nlinarith [h1.2, h2.2]

theorem typeScore_bounds (r : Requirements) (p : Property) :
    -(3/10) ≤ typeScore r p ∧ typeScore r p ≤ 1 := by
  unfold typeScore
  dsimp only
  constructor <;> split_ifs <;> norm_num

theorem preferenceScore_bounds (r : Requirements) (p : Property) :
    0 ≤ preferenceScore r p ∧ preferenceScore r p ≤ 1 := by
  unfold preferenceScore
  split
  · norm_num
  · rename_i hne
    have hlen : 0 < r.preferences.length := List.length_pos.mpr hne
    have hlenq : (0 : ℚ) < (r.preferences.length : ℚ) := by exact_mod_cast hlen
    have hcount := List.countP_le_length (prefHit (combinedText p)) (l := r.preferences)
    constructor
    · positivity
    · rw [div_le_one hlenq]
      exact_mod_cast hcount

theorem priceScore_bounds (props : List Property) (r : Requirements) (p : Property) :
    1/5 ≤ priceScore props r p ∧ priceScore props r p ≤ 1 := by
  unfold priceScore
  dsimp only
  constructor <;> split_ifs <;> norm_num

theorem amenitiesScore_bounds (r : Requirements) (p : Property) :
    0 ≤ amenitiesScore r p ∧ amenitiesScore r p ≤ 1 := by
  unfold amenitiesScore
  split
  · norm_num
  · rename_i hne
    have hlen : 0 < r.amenities_mentioned.length := List.length_pos.mpr hne
    have hlenq : (0 : ℚ) < (r.amenities_mentioned.length : ℚ) := by exact_mod_cast hlen
    have hcount := List.countP_le_length
      (fun am => (p.amenities.map pyLower).any (fun a => strIn (pyLower am) (pyLower a)))
      (l := r.amenities_mentioned)
    constructor
    · positivity
    · rw [div_le_one hlenq]
      exact_mod_cast hcount

theorem locationScore_exact (r : Requirements) (p : Property) (l : String)
    (hr : r.location = some l) (hl : l ≠ "") (heq : pyLower l = pyLower p.suburb) :
    locationScore r p = 1 := by
  unfold locationScore
  rw [hr]
  rw [if_pos (show strActive (some l) = true by simp [strActive, hl])]
  dsimp only [Option.getD_some]
  rw [if_pos heq]

theorem locationScore_partial (r : Requirements) (p : Property) (l : String)
    (hr : r.location = some l) (hl : l ≠ "")
    (hne : pyLower l ≠ pyLower p.suburb)
    (hin : (strIn (pyLower l) (pyLower p.suburb) || strIn (pyLower p.suburb) (pyLower l)) = true) :
    locationScore r p = 8/10 := by
  unfold locationScore
  rw [hr]
  rw [if_pos (show strActive (some l) = true by simp [strActive, hl])]
  dsimp only [Option.getD_some]
  rw [if_neg hne, if_pos hin]

theorem locationScore_not_exact (r : Requirements) (p : Property) (l : String)
    (hr : r.location = some l) (hne : pyLower l ≠ pyLower p.suburb) :
    -(2/10) ≤ locationScore r p ∧ locationScore r p ≤ 8/10 := by
  unfold locationScore
  rw [hr]
  by_cases hact : strActive (some l) = true
  · rw [if_pos hact]
    dsimp only [Option.getD_some]
    rw [if_neg hne]
    split_ifs <;> norm_num
  · rw [if_neg hact]
    norm_num

theorem typeScore_none (r : Requirements) (p : Property) (h : r.property_type = none) :
    typeScore r p = 1/2 := by
  unfold typeScore
  rw [h]
  rfl

theorem preferenceScore_empty (r : Requirements) (p : Property) (h : r.preferences = []) :
    preferenceScore r p = 1/2 := by
  unfold preferenceScore
  rw [h]
  rfl

theorem priceScore_none (props : List Property) (r : Requirements) (p : Property)
    (h : r.price_range_indicator = none) : priceScore props r p = 1/2 := by
  unfold priceScore
  rw [h]
  rfl

theorem amenitiesScore_empty (r : Requirements) (p : Property) (h : r.amenities_mentioned = []) :
    amenitiesScore r p = 1/2 := by
  unfold amenitiesScore
  rw [h]
  rfl

theorem roundTo3_mem01 (x : ℚ) (h0 : 0 ≤ x) (h1 : x ≤ 1) :
    0 ≤ roundTo3 x ∧ roundTo3 x ≤ 1 := by
  unfold roundTo3
  constructor
  · apply div_nonneg _ (by norm_num)
    have h2 : (0 : ℤ) ≤ round (x * 1000) := by
      rw [round_eq]
      apply Int.floor_nonneg.mpr
      nlinarith
    exact_mod_cast h2
  · rw [div_le_one (by norm_num)]
    have h2 : round (x * 1000) ≤ (1000 : ℤ) := by
      rw [round_eq]
      rw [Int.floor_le_iff]
      push_cast
      nlinarith
    exact_mod_cast h2

theorem roundTo3_lt (x y : ℚ) (h : x + 1/500 ≤ y) : roundTo3 x < roundTo3 y := by
  unfold roundTo3
  have h1 := abs_sub_round (x * 1000)
  have h2 := abs_sub_round (y * 1000)
  rw [abs_le] at h1 h2
  have h3 : ((round (x * 1000) : ℤ) : ℚ) < ((round (y * 1000) : ℤ) : ℚ) := by
    have hx := h1.1
    have hx2 := h1.2
    have hy := h2.1
    have hy2 := h2.2
    linarith
  gcongr

theorem roundTo3_eq (x : ℚ) (n : ℤ) (h : x * 1000 = (n : ℚ)) :
    roundTo3 x = (n : ℚ) / 1000 := by
  unfold roundTo3
  rw [h, round_intCast]

theorem matchScore_mem01 (props : List Property) (query : String) (r : Requirements)
    (p : Property) : 0 ≤ matchScore props query r p ∧ matchScore props query r p ≤ 1 := by
  unfold matchScore
  apply roundTo3_mem01
  · exact le_max_left 0 _
  · exact max_le (by norm_num) (min_le_left 1 _)

theorem matchScore_location_dominance (props : List Property) (query : String)
    (r : Requirements) (A B : Property) (l : String)
    (hr : r.location = some l) (hl : l ≠ "")
    (hA : pyLower l = pyLower A.suburb) (hB : pyLower l ≠ pyLower B.suburb)
    (hT : A.title = B.title) (hD : A.description = B.description)
    (hPT : A.property_type = B.property_type) (hC : A.city = B.city)
    (hP : A.price = B.price) (hAm : A.amenities = B.amenities)
    (hsem : semanticSim (pyLower query) A = semanticSim (pyLower query) B) :
    matchScore props query r B < matchScore props query r A := by
  have hty : typeScore r A = typeScore r B := by
    unfold typeScore
    rw [hPT]
  have hpref : preferenceScore r A = preferenceScore r B := by
    unfold preferenceScore combinedText
    rw [hT, hD, hAm]
  have hprice : priceScore props r A = priceScore props r B := by
    unfold priceScore
    rw [hP]
  have hamen : amenitiesScore r A = amenitiesScore r B := by
    unfold amenitiesScore
    rw [hAm]
  have hlocA : locationScore r A = 1 := locationScore_exact r A l hr hl hA
  have hlocB := locationScore_not_exact r B l hr hB
  have hsem2 := semanticSim_bounds (pyLower query) B
  have hty2 := typeScore_bounds r B
  have hpref2 := preferenceScore_bounds r B
  have hprice2 := priceScore_bounds props r B
  have hamen2 := amenitiesScore_bounds r B
  have hdiff : totalScore props query r B + 1/20 ≤ totalScore props query r A ∧
      9/40 ≤ totalScore props query r A ∧ totalScore props query r A ≤ 1 ∧
      totalScore props query r B ≤ 19/20 := by
    unfold totalScore
    rw [hsem, hty, hpref, hprice, hamen, hlocA]
    refine ⟨?_, ?_, ?_, ?_⟩ <;>
      linarith [hlocB.1, hlocB.2, hsem2.1, hsem2.2, hty2.1, hty2.2, hpref2.1, hpref2.2,
        hprice2.1, hprice2.2, hamen2.1, hamen2.2]
  have hclamp : max 0 (min 1 (totalScore props query r B)) + 1/20 ≤
      max 0 (min 1 (totalScore props query r A)) := by
    rw [min_eq_right hdiff.2.2.1, min_eq_right (le_trans hdiff.2.2.2 (by norm_num)),
      max_eq_right (le_trans (by norm_num) hdiff.2.1)]
    rcases le_or_lt 0 (totalScore props query r B) with h4 | h4
    · rw [max_eq_right h4]
      linarith [hdiff.1]
    · rw [max_eq_left (le_of_lt h4)]
      linarith [hdiff.2.1]
  unfold matchScore
  apply roundTo3_lt
  linarith [hclamp]

theorem seqRatioQ_eval (a b : List Char) (m T : Nat) (hT : a.length + b.length = T) (hT0 : T ≠ 0)
    (hm : matchesTotal a b (T + 1) 0 a.length 0 b.length = m) :
    seqRatioQ a b = 2 * (m : ℚ) / (T : ℚ) := by
  unfold seqRatioQ
  dsimp only
  rw [hT, if_neg hT0, hm]

/-- C4 (amended): every surfaced matchScore lies in [0, 1] (the total is
clamped before rounding), and for two listings identical in title,
description, type, city, price and amenities but not suburb, scored under
a requirement whose location equals one suburb exactly (case-insensitively)
and not the other, the matching listing scores strictly higher WHENEVER the
two listings' semantic-similarity blends are equal — the suburb also feeds
the semantic text, which can reverse the overall order otherwise (see the
counterexample). -/
theorem C4_scores_bounded_location_dominance :
    (∀ (props : List Property) (query : String) (r : Requirements) (p : Property),
      0 ≤ matchScore props query r p ∧ matchScore props query r p ≤ 1 ∧
      score_properties_semantically props query r =
        props.map (fun q => (q, matchScore props query r q))) ∧
    (∀ (props : List Property) (query : String) (r : Requirements) (A B : Property) (l : String),
      r.location = some l → l ≠ "" →
      pyLower l = pyLower A.suburb → pyLower l ≠ pyLower B.suburb →
      A.title = B.title → A.description = B.description →
      A.property_type = B.property_type → A.city = B.city →
      A.price = B.price → A.amenities = B.amenities →
      semanticSim (pyLower query) A = semanticSim (pyLower query) B →
      matchScore props query r B < matchScore props query r A) := by
  constructor
  · intro props query r p
    exact ⟨(matchScore_mem01 props query r p).1, (matchScore_mem01 props query r p).2, rfl⟩
  · intro props query r A B l hr hl hA hB hT hD hPT hC hP hAm hsem
    exact matchScore_location_dominance props query r A B l hr hl hA hB hT hD hPT hC hP hAm hsem

set_option maxRecDepth 20000 in
theorem semanticSim_west_kilimani : semanticSim (pyLower "west") kilimaniListing = 0 := by
  have hj : jaccardSim (pyLower "west") (propTextOf kilimaniListing) = 0 := by
    have hi : interCard (wordSet (pyLower "west")) (wordSet (propTextOf kilimaniListing)) = 0 := by
      decide
    have hu : unionCard (wordSet (pyLower "west")) (wordSet (propTextOf kilimaniListing)) = 2 := by
      decide
    unfold jaccardSim
    dsimp only
    rw [hi, hu]
    norm_num
  have hs : seqSimOf (pyLower "west") (propTextOf kilimaniListing) = 0 := by
    have h := seqRatioQ_eval (pyLower "west").toList
      ((propTextOf kilimaniListing).toList.take (3 * (pyLower "west").length)) 0 16
      (by decide) (by decide) (by decide)
    unfold seqSimOf
    rw [h]
    norm_num
  unfold semanticSim
  rw [hj, hs]
  norm_num

set_option maxRecDepth 20000 in
theorem semanticSim_west_kilimaniWest :
    semanticSim (pyLower "west") kilimaniWestListing = 3/10 := by
  have hj : jaccardSim (pyLower "west") (propTextOf kilimaniWestListing) = 1/2 := by
    have hi : interCard (wordSet (pyLower "west")) (wordSet (propTextOf kilimaniWestListing)) = 1 := by
      decide
    have hu : unionCard (wordSet (pyLower "west")) (wordSet (propTextOf kilimaniWestListing)) = 2 := by
      decide
    unfold jaccardSim
    dsimp only
    rw [hi, hu]
    norm_num
  have hs : seqSimOf (pyLower "west") (propTextOf kilimaniWestListing) = 0 := by
    have h := seqRatioQ_eval (pyLower "west").toList
      ((propTextOf kilimaniWestListing).toList.take (3 * (pyLower "west").length)) 0 16
      (by decide) (by decide) (by decide)
    unfold seqSimOf
    rw [h]
    norm_num
  unfold semanticSim
  rw [hj, hs]
  norm_num

/-- C4 counterexample: two listings identical except suburb ("kilimani"
vs "kilimani west"), requirement location "kilimani" (an exact match for
the first only), query "west": the exact-match listing scores 0.475 while
the other scores 0.515 — the suburb word "west" boosts the non-matching
listing's semantic component (0.30 weight) by more than the 0.25-weight
location factor drop (1.0 vs 0.8), so the claimed strict dominance fails. -/
theorem C4_counterexample :
    matchScore [kilimaniListing, kilimaniWestListing] "west" (locOnlyReq "kilimani")
        kilimaniListing <
      matchScore [kilimaniListing, kilimaniWestListing] "west" (locOnlyReq "kilimani")
        kilimaniWestListing ∧
    (locOnlyReq "kilimani").location = some "kilimani" ∧
    pyLower "kilimani" = pyLower kilimaniListing.suburb ∧
    pyLower "kilimani" ≠ pyLower kilimaniWestListing.suburb := by
  refine ⟨?_, rfl, by decide, by decide⟩
  have hlocA : locationScore (locOnlyReq "kilimani") kilimaniListing = 1 :=
    locationScore_exact _ _ "kilimani" rfl (by decide) (by decide)
  have hlocB : locationScore (locOnlyReq "kilimani") kilimaniWestListing = 8/10 :=
    locationScore_partial _ _ "kilimani" rfl (by decide) (by decide) (by decide)
  have htyA := typeScore_none (locOnlyReq "kilimani") kilimaniListing rfl
  have htyB := typeScore_none (locOnlyReq "kilimani") kilimaniWestListing rfl
  have hprA := preferenceScore_empty (locOnlyReq "kilimani") kilimaniListing rfl
  have hprB := preferenceScore_empty (locOnlyReq "kilimani") kilimaniWestListing rfl
  have hpcA := priceScore_none [kilimaniListing, kilimaniWestListing] (locOnlyReq "kilimani")
    kilimaniListing rfl
  have hpcB := priceScore_none [kilimaniListing, kilimaniWestListing] (locOnlyReq "kilimani")
    kilimaniWestListing rfl
  have hamA := amenitiesScore_empty (locOnlyReq "kilimani") kilimaniListing rfl
  have hamB := amenitiesScore_empty (locOnlyReq "kilimani") kilimaniWestListing rfl
  have htotA : totalScore [kilimaniListing, kilimaniWestListing] "west" (locOnlyReq "kilimani")
      kilimaniListing = 19/40 := by
    unfold totalScore
    rw [semanticSim_west_kilimani, hlocA, htyA, hprA, hpcA, hamA]
    norm_num
  have htotB : totalScore [kilimaniListing, kilimaniWestListing] "west" (locOnlyReq "kilimani")
      kilimaniWestListing = 103/200 := by
    unfold totalScore
    rw [semanticSim_west_kilimaniWest, hlocB, htyB, hprB, hpcB, hamB]
    norm_num
  unfold matchScore
  rw [htotA, htotB]
  rw [min_eq_right (show (19/40 : ℚ) ≤ 1 by norm_num),
    max_eq_right (show (0 : ℚ) ≤ 19/40 by norm_num),
    min_eq_right (show (103/200 : ℚ) ≤ 1 by norm_num),
    max_eq_right (show (0 : ℚ) ≤ 103/200 by norm_num)]
  rw [roundTo3_eq (19/40) 475 (by norm_num), roundTo3_eq (103/200) 515 (by norm_num)]
  norm_num

set_option maxRecDepth 20000 in
theorem semanticSim_zzz_eq :
    semanticSim (pyLower "zzz") kilimaniListing = semanticSim (pyLower "zzz") karenListing := by
  have hjA : jaccardSim (pyLower "zzz") (propTextOf kilimaniListing) = 0 := by
    have hi : interCard (wordSet (pyLower "zzz")) (wordSet (propTextOf kilimaniListing)) = 0 := by
      decide
    have hu : unionCard (wordSet (pyLower "zzz")) (wordSet (propTextOf kilimaniListing)) = 2 := by
      decide
    unfold jaccardSim
    dsimp only
    rw [hi, hu]
    norm_num
  have hjB : jaccardSim (pyLower "zzz") (propTextOf karenListing) = 0 := by
    have hi : interCard (wordSet (pyLower "zzz")) (wordSet (propTextOf karenListing)) = 0 := by
      decide
    have hu : unionCard (wordSet (pyLower "zzz")) (wordSet (propTextOf karenListing)) = 2 := by
      decide
    unfold jaccardSim
    dsimp only
    rw [hi, hu]
    norm_num
  have hsA : seqSimOf (pyLower "zzz") (propTextOf kilimaniListing) = 0 := by
    have h := seqRatioQ_eval (pyLower "zzz").toList
      ((propTextOf kilimaniListing).toList.take (3 * (pyLower "zzz").length)) 0 12
      (by decide) (by decide) (by decide)
    unfold seqSimOf
    rw [h]
    norm_num
  have hsB : seqSimOf (pyLower "zzz") (propTextOf karenListing) = 0 := by
    have h := seqRatioQ_eval (pyLower "zzz").toList
      ((propTextOf karenListing).toList.take (3 * (pyLower "zzz").length)) 0 12
      (by decide) (by decide) (by decide)
    unfold seqSimOf
    rw [h]
    norm_num
  unfold semanticSim
  rw [hjA, hjB, hsA, hsB]

theorem C4_witness :
    matchScore [kilimaniListing, karenListing] "zzz" (locOnlyReq "kilimani") karenListing <
      matchScore [kilimaniListing, karenListing] "zzz" (locOnlyReq "kilimani") kilimaniListing :=
  C4_scores_bounded_location_dominance.2 [kilimaniListing, karenListing] "zzz"
    (locOnlyReq "kilimani") kilimaniListing karenListing "kilimani" rfl (by decide) (by decide)
    (by decide) rfl rfl rfl rfl rfl rfl semanticSim_zzz_eq
